import Mathlib

/-!
# S5Late `stub.c`: the runtime state patcher `_start`

A shallow embedding of `src/stub.c`.  The target is a 32-bit little-endian
ARM image: memory is byte addressed, addresses and `int` values are 32-bit
words, and every address computation wraps modulo `2^32 = 4294967296`.

The two host routines the stub calls through fixed function pointers
(`malloc` at `0x20000FE0`, `memcpy` at `0x2000B1E4`) are parameters of
`_start`; their models are given separately below.
-/

namespace S5Late

/-! ## Memory -/

/-- Byte-addressed memory: the byte at address `a < 2^32` is `m.cell a % 256`. -/
structure Mem where
  cell : Nat → Nat

/-- Read of one byte; the address wraps to 32 bits. -/
def load8 (m : Mem) (a : Nat) : Nat := m.cell (a % 4294967296) % 256

/-- Write of one byte (the low 8 bits of `v`); the address wraps to 32 bits. -/
def store8 (m : Mem) (a v : Nat) : Mem :=
  ⟨fun x => if x = a % 4294967296 then v % 256 else m.cell x⟩

/-- Little-endian read of a 32-bit word (`*(int *)a`). -/
def load32 (m : Mem) (a : Nat) : Nat :=
  load8 m a + 256 * load8 m (a + 1) + 65536 * load8 m (a + 2) + 16777216 * load8 m (a + 3)

/-- Little-endian write of a 32-bit word (`*(int *)a = v`). -/
def store32 (m : Mem) (a v : Nat) : Mem :=
  store8 (store8 (store8 (store8 m a v) (a + 1) (v / 256)) (a + 2) (v / 65536))
    (a + 3) (v / 16777216)

/-- Address of `base[k]` for `int *base`: `base + 4*k`, wrapped to 32 bits. -/
def idx (base k : Nat) : Nat := (base + 4 * k) % 4294967296

/-- The bytes `m[a], …, m[a+n-1]` as a list. -/
def bytes (m : Mem) (a : Nat) : Nat → List Nat
  | 0 => []
  | n + 1 => load8 m a :: bytes m (a + 1) n

/-! ## Host routines -/

/-- The type of the host copy routine `void memcpy(void*, void*, unsigned)`
as a memory transformer: `memcpy m dst src n`. -/
abbrev memcpy_t := Mem → Nat → Nat → Nat → Mem

/-- The type of the host allocator `void *malloc(unsigned)`: from the memory and
the requested size to the returned reference and the memory it leaves. -/
abbrev malloc_t := Mem → Nat → Nat × Mem

/-- Modelled from the spec: the host byte-copy primitive
`copy(destination, source, length)` (the firmware routine at `0x2000B1E4`, not
part of the repository), as an ascending byte-by-byte copy. -/
def host_memcpy : memcpy_t
  | m, _, _, 0 => m
  | m, dst, src, n + 1 =>
    let m1 := host_memcpy m dst src n
    store8 m1 (dst + n) (load8 m1 (src + n))

/-- Modelled from the spec: the host allocator `allocate(size) -> reference`
(the firmware routine at `0x20000FE0`, not part of the repository), as an
oracle that returns the reference `p`; its own bookkeeping is not modelled and
memory is left as it is. -/
def host_malloc (p : Nat) : malloc_t := fun m _ => (p, m)

/-! ## The routine -/

/-- Line 7: `int ret_true = 0x200011E0;` -/
def ret_true : Nat := 0x200011E0

/-- Line 12: `int *state_ptr = (int *)0x2202FFF8;` -/
def state_ptr : Nat := 0x2202FFF8

/-- Line 13: `int *og_state = (int *)0x2202ba3c;` -/
def og_state : Nat := 0x2202ba3c

/-- Line 14: `int *heap = (int *)0x2202d900;` -/
def heap : Nat := 0x2202d900

/-- Lines 16-18, "Reset state". -/
def reset_state (m : Mem) : Mem :=
  let m := store32 m (idx og_state 2) 0
  let m := store32 m (idx og_state 3) 0
  store32 m (idx og_state 4) 0

/-- Lines 21-22: `new_ctx = malloc(0x70); memcpy(new_ctx, 0x20000020, 0x70);`.
Returns `new_ctx` (a 32-bit pointer) and the memory. -/
def copy_ctx (malloc : malloc_t) (memcpy : memcpy_t) (m : Mem) : Nat × Mem :=
  let r := malloc m 0x70
  let new_ctx := r.1 % 4294967296
  (new_ctx, memcpy r.2 new_ctx 0x20000020 0x70)

/-- Lines 23-24: the two verify slots of the copy receive `ret_true`. -/
def patch_ctx (new_ctx : Nat) (m : Mem) : Mem :=
  let m := store32 m (idx new_ctx (0x14 / 4)) ret_true
  store32 m (idx new_ctx (0x1C / 4)) ret_true

/-- Line 27: `og_state[0x24/4] = new_ctx;`. -/
def install_ctx (new_ctx : Nat) (m : Mem) : Mem :=
  store32 m (idx og_state (0x24 / 4)) new_ctx

/-- Line 30: `int* usb_string_descriptors = og_state[0x20];`. -/
def usb_string_descriptors (m : Mem) : Nat := load32 m (idx og_state 0x20)

/-- Lines 30-35, "Set new descriptor". -/
def set_descriptor (m : Mem) : Mem :=
  let t := usb_string_descriptors m
  let m := store32 m (idx t 2) 0x2202FFC0
  let m := store32 m (idx 0x2202FFC0 0) 0x00500310
  let m := store32 m (idx 0x2202FFC0 1) 0x004E0057
  let m := store32 m (idx 0x2202FFC0 2) 0x00440020
  store32 m (idx 0x2202FFC0 3) 0x00550046

/-- Line 37: `state_ptr[0] = og_state;`. -/
def publish_state (m : Mem) : Mem := store32 m (idx state_ptr 0) og_state

/-- Lines 21-24, the Verification-Context Patcher. -/
def patcher (malloc : malloc_t) (memcpy : memcpy_t) (m : Mem) : Nat × Mem :=
  let c := copy_ctx malloc memcpy m
  (c.1, patch_ctx c.1 c.2)

/-- Lines 16-27: the routine up to and including the Context Installer store. -/
def installed (malloc : malloc_t) (memcpy : memcpy_t) (m : Mem) : Nat × Mem :=
  let c := patcher malloc memcpy (reset_state m)
  (c.1, install_ctx c.1 c.2)

/-- The whole routine `void _start()`, lines 4-38, as a memory transformer. -/
def _start (malloc : malloc_t) (memcpy : memcpy_t) (m : Mem) : Mem :=
  publish_state (set_descriptor (installed malloc memcpy m).2)

/-- Lines 30-31: the table pointer is read from `og_state[0x20]` and entry 2 of
the table receives the address of the descriptor block. -/
def set_entry (m : Mem) : Mem :=
  store32 m (idx (usb_string_descriptors m) 2) 0x2202FFC0

/-- Lines 32-35: the four words of the descriptor block at `0x2202FFC0`. -/
def write_block (m : Mem) : Mem :=
  let m := store32 m (idx 0x2202FFC0 0) 0x00500310
  let m := store32 m (idx 0x2202FFC0 1) 0x004E0057
  let m := store32 m (idx 0x2202FFC0 2) 0x00440020
  store32 m (idx 0x2202FFC0 3) 0x00550046

/-! ## Address ranges and the host's use of the patched data -/

/-- The byte ranges `[a, a+la)` and `[b, b+lb)`, taken modulo `2^32`, share no
address. -/
def separate (a la b lb : Nat) : Prop :=
  ∀ i, i < la → ∀ j, j < lb → (a + i) % 4294967296 ≠ (b + j) % 4294967296

instance (a la b lb : Nat) : Decidable (separate a la b lb) := by
  unfold separate; infer_instance

/-- The host's executable code: `code f x` is what a call of the function at
address `f` with argument `x` returns. -/
abbrev code_t := Nat → Nat → Nat

/-- Modelled from the spec: the host's "header verify" call, dispatched through
the slot at offset `0x14` of the context that `og_state[0x24/4]` references. -/
def img_verify_header (code : code_t) (m : Mem) (x : Nat) : Nat :=
  code (load32 m (load32 m (idx og_state (0x24 / 4)) + 0x14)) x

/-- Modelled from the spec: the host's "certificate verify" call, dispatched
through the slot at offset `0x1C` of the context that `og_state[0x24/4]`
references. -/
def img_verify_certificate (code : code_t) (m : Mem) (x : Nat) : Nat :=
  code (load32 m (load32 m (idx og_state (0x24 / 4)) + 0x1C)) x

/-- Two memories hold the same byte at every address outside the range
`[a, a+len)` (taken modulo `2^32`). -/
def agree_outside (m1 m2 : Mem) (a len : Nat) : Prop :=
  ∀ x, (∀ i, i < len → x % 4294967296 ≠ (a + i) % 4294967296) → load8 m1 x = load8 m2 x

/-- The 16-bit little-endian code units of a byte list. -/
def code_units : List Nat → List Nat
  | lo :: hi :: t => (lo + 256 * hi) :: code_units t
  | _ => []

/-- Modelled from the spec: a USB host's reading of the string descriptor at
`a`: byte 0 is `bLength`, the length of the whole descriptor, byte 1 is
`bDescriptorType` (3 for a string), and the remaining `bLength - 2` bytes are
UTF-16LE code units (taken here as code points of the basic plane). -/
def usb_string (m : Mem) (a : Nat) : Option String :=
  match bytes m a (load8 m a) with
  | _ :: 3 :: rest => some (String.mk ((code_units rest).map Char.ofNat))
  | _ => none

/-! ## Read-over-write lemmas -/

theorem load8_store8 (m : Mem) (a v b : Nat) :
    load8 (store8 m a v) b
      = if b % 4294967296 = a % 4294967296 then v % 256 else load8 m b := by
  unfold load8 store8
  by_cases h : b % 4294967296 = a % 4294967296
  · simp [h]
  · simp [h]

theorem load8_store8_ne (m : Mem) (a v b : Nat) (h : b % 4294967296 ≠ a % 4294967296) :
    load8 (store8 m a v) b = load8 m b := by
  rw [load8_store8, if_neg h]

/-- A byte outside the four bytes of a stored word is not changed. -/
theorem load8_store32_ne (m : Mem) (a v b : Nat)
    (h : 4 ≤ (b % 4294967296 + 4294967296 - a % 4294967296) % 4294967296) :
    load8 (store32 m a v) b = load8 m b := by
  unfold store32
  rw [load8_store8_ne _ _ _ _ (by omega), load8_store8_ne _ _ _ _ (by omega),
    load8_store8_ne _ _ _ _ (by omega), load8_store8_ne _ _ _ _ (by omega)]

/-- Byte `j` of a stored word. -/
theorem load8_store32_at (m : Mem) (a v j : Nat) (hj : j < 4) :
    load8 (store32 m a v) (a + j) = v / 256 ^ j % 256 := by
  unfold store32
  simp only [load8_store8]
  have h : j = 0 ∨ j = 1 ∨ j = 2 ∨ j = 3 := by omega
  rcases h with h | h | h | h <;> subst h
  · rw [if_neg (by omega), if_neg (by omega), if_neg (by omega), if_pos (by omega)]
    simp
  · rw [if_neg (by omega), if_neg (by omega), if_pos (by omega)]
    norm_num
  · rw [if_neg (by omega), if_pos (by omega)]
    norm_num
  · rw [if_pos (by omega)]
    norm_num

theorem load32_store32_same (m : Mem) (a v : Nat) :
    load32 (store32 m a v) a = v % 4294967296 := by
  unfold load32
  have h0 := load8_store32_at m a v 0 (by omega)
  have h1 := load8_store32_at m a v 1 (by omega)
  have h2 := load8_store32_at m a v 2 (by omega)
  have h3 := load8_store32_at m a v 3 (by omega)
  simp only [Nat.add_zero] at h0
  rw [h0, h1, h2, h3]
  norm_num
  omega

/-- A word that shares no byte with the stored word is not changed. -/
theorem load32_store32_ne (m : Mem) (a v b : Nat)
    (h1 : 4 ≤ (b % 4294967296 + 4294967296 - a % 4294967296) % 4294967296)
    (h2 : (b % 4294967296 + 4294967296 - a % 4294967296) % 4294967296 ≤ 4294967292) :
    load32 (store32 m a v) b = load32 m b := by
  unfold load32
  rw [load8_store32_ne _ _ _ _ (by omega), load8_store32_ne _ _ _ _ (by omega),
    load8_store32_ne _ _ _ _ (by omega), load8_store32_ne _ _ _ _ (by omega)]

/-- The copy changes no byte outside its destination range. -/
theorem load8_host_memcpy_ne (m : Mem) (dst src n b : Nat)
    (h : n ≤ (b % 4294967296 + 4294967296 - dst % 4294967296) % 4294967296) :
    load8 (host_memcpy m dst src n) b = load8 m b := by
  induction n with
  | zero => rfl
  | succ k ih =>
    simp only [host_memcpy]
    rw [load8_store8_ne _ _ _ _ (by omega), ih (by omega)]

/-- When the source range shares no byte with the destination range, byte `i`
of the destination receives byte `i` of the source. -/
theorem load8_host_memcpy_at0 (m : Mem) (dst src n i : Nat) (hi : i < n)
    (hn : n ≤ 4294967296)
    (hd : ∀ j, j < n →
      n ≤ ((src + j) % 4294967296 + 4294967296 - dst % 4294967296) % 4294967296) :
    load8 (host_memcpy m dst src n) (dst + i) = load8 m (src + i) := by
  induction n with
  | zero => omega
  | succ k ih =>
    simp only [host_memcpy]
    by_cases hik : i = k
    · subst hik
      rw [load8_store8, if_pos rfl]
      rw [load8_host_memcpy_ne _ _ _ _ _ (by have := hd i (by omega); omega)]
      unfold load8
      exact Nat.mod_mod _ _
    · rw [load8_store8_ne _ _ _ _ (by omega)]
      exact ih (by omega) (by omega) (fun j hj => by have := hd j (by omega); omega)

theorem load8_congr (m : Mem) (a b : Nat) (h : a % 4294967296 = b % 4294967296) :
    load8 m a = load8 m b := by
  unfold load8; rw [h]

theorem load32_congr (m : Mem) (a b : Nat) (h : a % 4294967296 = b % 4294967296) :
    load32 m a = load32 m b := by
  unfold load32
  rw [load8_congr m a b h, load8_congr m (a + 1) (b + 1) (by omega),
    load8_congr m (a + 2) (b + 2) (by omega), load8_congr m (a + 3) (b + 3) (by omega)]

/-- Offsets of the second range, measured from the start of the first, are at
least the first range's length. -/
theorem separate_off (a la b lb : Nat) (h : separate a la b lb) (j : Nat) (hj : j < lb) :
    la ≤ ((b + j) % 4294967296 + 4294967296 - a % 4294967296) % 4294967296 := by
  by_contra hc
  exact h (((b + j) % 4294967296 + 4294967296 - a % 4294967296) % 4294967296)
    (by omega) j hj (by omega)

/-- Offsets of the first range, measured from the start of the second, are at
least the second range's length. -/
theorem separate_off_left (a la b lb : Nat) (h : separate a la b lb) (i : Nat) (hi : i < la) :
    lb ≤ ((a + i) % 4294967296 + 4294967296 - b % 4294967296) % 4294967296 := by
  by_contra hc
  exact h i hi (((a + i) % 4294967296 + 4294967296 - b % 4294967296) % 4294967296)
    (by omega) (by omega)

/-- Byte `i` of a copy between ranges that share no address. -/
theorem load8_host_memcpy_at (m : Mem) (dst src n i : Nat) (hi : i < n)
    (hn : n ≤ 4294967296) (hd : separate dst n src n) :
    load8 (host_memcpy m dst src n) (dst + i) = load8 m (src + i) :=
  load8_host_memcpy_at0 m dst src n i hi hn (fun j hj => separate_off dst n src n hd j hj)

/-- A word separate from the stored word, in terms of `separate`. -/
theorem load32_store32_sep (m : Mem) (a v b : Nat) (h : separate b 4 a 4) :
    load32 (store32 m a v) b = load32 m b := by
  have h0 := separate_off_left b 4 a 4 h 0 (by omega)
  have h3 := separate_off_left b 4 a 4 h 3 (by omega)
  exact load32_store32_ne m a v b (by omega) (by omega)

/-- The word just stored, read back through any address equal to it modulo
`2^32`. -/
theorem load32_store32_eq (m : Mem) (a v b : Nat) (h : b % 4294967296 = a % 4294967296) :
    load32 (store32 m a v) b = v % 4294967296 := by
  rw [load32_congr _ b a h, load32_store32_same]

/-- The memory after line 27 as a chain of stores over the copy. -/
theorem installed_mem (p : Nat) (memcpy : memcpy_t) (m : Mem) :
    (installed (host_malloc p) memcpy m).2
      = store32 (store32 (store32
          (memcpy (reset_state m) (p % 4294967296) 0x20000020 0x70)
          ((p % 4294967296 + 20) % 4294967296) 0x200011E0)
          ((p % 4294967296 + 28) % 4294967296) 0x200011E0)
          0x2202ba60 (p % 4294967296) := by
  simp only [installed, install_ctx, patcher, patch_ctx, copy_ctx, host_malloc, idx, og_state,
    ret_true]

/-- A byte read over a word store: byte `k` of the word when the address is
`k < 4` past the word's address, the old byte otherwise. -/
theorem load8_store32 (m : Mem) (a v b : Nat) :
    load8 (store32 m a v) b
      = if (b % 4294967296 + 4294967296 - a % 4294967296) % 4294967296 < 4
        then v / 256 ^ ((b % 4294967296 + 4294967296 - a % 4294967296) % 4294967296) % 256
        else load8 m b := by
  by_cases h : (b % 4294967296 + 4294967296 - a % 4294967296) % 4294967296 < 4
  · rw [if_pos h, load8_congr _ b
      (a + (b % 4294967296 + 4294967296 - a % 4294967296) % 4294967296) (by omega)]
    exact load8_store32_at m a v _ h
  · rw [if_neg h]
    exact load8_store32_ne m a v b (by omega)

/-- The final memory as a chain of stores over the memory after line 27. -/
theorem start_mem (malloc : malloc_t) (memcpy : memcpy_t) (m : Mem) :
    _start malloc memcpy m
      = store32 (store32 (store32 (store32 (store32 (store32
          (installed malloc memcpy m).2
          ((usb_string_descriptors (installed malloc memcpy m).2 + 8) % 4294967296) 0x2202FFC0)
          0x2202FFC0 0x00500310) 0x2202FFC4 0x004E0057) 0x2202FFC8 0x00440020)
          0x2202FFCC 0x00550046) 0x2202FFF8 0x2202ba3c := by
  simp only [_start, publish_state, set_descriptor, idx, state_ptr, og_state]

/-- The 16 bytes at `0x2202FFC0` at the end of the routine. -/
theorem start_descriptor_bytes (malloc : malloc_t) (memcpy : memcpy_t) (m : Mem) :
    bytes (_start malloc memcpy m) 0x2202FFC0 16
      = [0x10, 0x03, 0x50, 0x00, 0x57, 0x00, 0x4E, 0x00,
         0x20, 0x00, 0x44, 0x00, 0x46, 0x00, 0x55, 0x00] := by
  rw [start_mem]
  simp [bytes, load8_store32]

/-- Words whose four bytes agree are equal. -/
theorem load32_eq_of_bytes (m m' : Mem) (a a' : Nat)
    (h : ∀ j, j < 4 → load8 m (a + j) = load8 m' (a' + j)) :
    load32 m a = load32 m' a' := by
  unfold load32
  have h0 := h 0 (by omega)
  simp only [Nat.add_zero] at h0
  rw [h0, h 1 (by omega), h 2 (by omega), h 3 (by omega)]

/-- A word whose four bytes are 0 is 0. -/
theorem load32_eq_zero (m : Mem) (a : Nat) (h : ∀ j, j < 4 → load8 m (a + j) = 0) :
    load32 m a = 0 := by
  unfold load32
  have h0 := h 0 (by omega)
  simp only [Nat.add_zero] at h0
  rw [h0, h 1 (by omega), h 2 (by omega), h 3 (by omega)]

/-- Frame of lines 16-18: bytes outside `og_state[2..4]` keep their value. -/
theorem load8_reset_state_ne (m : Mem) (x : Nat)
    (h : 12 ≤ (x % 4294967296 + 4294967296 - 0x2202ba44) % 4294967296) :
    load8 (reset_state m) x = load8 m x := by
  simp only [reset_state, idx, og_state]
  norm_num at h ⊢
  rw [load8_store32_ne _ _ _ _ (by omega), load8_store32_ne _ _ _ _ (by omega),
    load8_store32_ne _ _ _ _ (by omega)]

/-- Effect of lines 16-18: the twelve bytes of `og_state[2..4]` are 0. -/
theorem load8_reset_state_at (m : Mem) (x : Nat)
    (h : (x % 4294967296 + 4294967296 - 0x2202ba44) % 4294967296 < 12) :
    load8 (reset_state m) x = 0 := by
  simp only [reset_state, idx, og_state]
  norm_num at h ⊢
  simp only [load8_store32]
  split_ifs <;> first | omega | simp

/-- Frame of lines 21-27 (allocator result `p`, byte-wise copy): bytes outside
the block `[p, p+0x70)` and outside `og_state[9]` keep their value. -/
theorem load8_installed_ne (m : Mem) (p x : Nat)
    (hb : 0x70 ≤ (x % 4294967296 + 4294967296 - p % 4294967296) % 4294967296)
    (hv : 4 ≤ (x % 4294967296 + 4294967296 - 0x2202ba60) % 4294967296) :
    load8 (installed (host_malloc p) host_memcpy m).2 x = load8 (reset_state m) x := by
  rw [installed_mem]
  norm_num at hb hv ⊢
  rw [load8_store32_ne _ _ _ _ (by omega), load8_store32_ne _ _ _ _ (by omega),
    load8_store32_ne _ _ _ _ (by omega), load8_host_memcpy_ne _ _ _ _ _ (by omega)]

/-- Frame of lines 30-37: bytes outside the table entry `T+8`, the descriptor
block and the state-pointer slot keep their value. -/
theorem load8_start_ne (malloc : malloc_t) (memcpy : memcpy_t) (m : Mem) (x : Nat)
    (ht : 4 ≤ (x % 4294967296 + 4294967296
      - (usb_string_descriptors (installed malloc memcpy m).2 + 8) % 4294967296) % 4294967296)
    (hd : 16 ≤ (x % 4294967296 + 4294967296 - 0x2202FFC0) % 4294967296)
    (hs : 4 ≤ (x % 4294967296 + 4294967296 - 0x2202FFF8) % 4294967296) :
    load8 (_start malloc memcpy m) x = load8 (installed malloc memcpy m).2 x := by
  rw [start_mem]
  rw [load8_store32_ne _ _ _ _ (by omega), load8_store32_ne _ _ _ _ (by omega),
    load8_store32_ne _ _ _ _ (by omega), load8_store32_ne _ _ _ _ (by omega),
    load8_store32_ne _ _ _ _ (by omega), load8_store32_ne _ _ _ _ (by omega)]

/-- The table entry at the end of the routine, when its word is separate from
the descriptor block and the state-pointer slot. -/
theorem load32_start_entry (malloc : malloc_t) (memcpy : memcpy_t) (m : Mem)
    (h1 : separate (usb_string_descriptors (installed malloc memcpy m).2 + 8) 4 0x2202FFC0 16)
    (h2 : separate (usb_string_descriptors (installed malloc memcpy m).2 + 8) 4 0x2202FFF8 4) :
    load32 (_start malloc memcpy m) (usb_string_descriptors (installed malloc memcpy m).2 + 8)
      = 0x2202FFC0 := by
  have a0 := separate_off_left _ 4 0x2202FFC0 16 h1 0 (by omega)
  have a3 := separate_off_left _ 4 0x2202FFC0 16 h1 3 (by omega)
  have b0 := separate_off_left _ 4 0x2202FFF8 4 h2 0 (by omega)
  have b3 := separate_off_left _ 4 0x2202FFF8 4 h2 3 (by omega)
  rw [start_mem, load32_store32_ne _ _ _ _ (by omega) (by omega),
    load32_store32_ne _ _ _ _ (by omega) (by omega),
    load32_store32_ne _ _ _ _ (by omega) (by omega),
    load32_store32_ne _ _ _ _ (by omega) (by omega),
    load32_store32_ne _ _ _ _ (by omega) (by omega),
    load32_store32_eq _ _ _ _ (by omega)]

/-- The word `og_state[9]` at the end of the routine, when the table entry
word is separate from it. -/
theorem load32_start_ctx_ptr (p : Nat) (memcpy : memcpy_t) (m : Mem)
    (h : separate (usb_string_descriptors (installed (host_malloc p) memcpy m).2 + 8) 4
      0x2202ba60 4) :
    load32 (_start (host_malloc p) memcpy m) 0x2202ba60 = p % 4294967296 := by
  have a0 := separate_off _ 4 0x2202ba60 4 h 0 (by omega)
  have a3 := separate_off _ 4 0x2202ba60 4 h 3 (by omega)
  rw [start_mem, load32_store32_ne _ _ _ _ (by omega) (by omega),
    load32_store32_ne _ _ _ _ (by omega) (by omega),
    load32_store32_ne _ _ _ _ (by omega) (by omega),
    load32_store32_ne _ _ _ _ (by omega) (by omega),
    load32_store32_ne _ _ _ _ (by omega) (by omega),
    load32_store32_ne _ _ _ _ (by omega) (by omega),
    installed_mem, load32_store32_same, Nat.mod_mod]

/-- The bytes of `og_state[2..4]` at the end of the routine, when neither the
block nor the table entry word touches them. -/
theorem load8_start_transfer (m : Mem) (p k : Nat) (hk : k < 12)
    (hb : separate p 0x70 0x2202ba44 12)
    (ht : separate (usb_string_descriptors (installed (host_malloc p) host_memcpy m).2 + 8) 4
      0x2202ba44 12) :
    load8 (_start (host_malloc p) host_memcpy m) (0x2202ba44 + k) = 0 := by
  have a := separate_off _ 4 0x2202ba44 12 ht k hk
  have b := separate_off p 0x70 0x2202ba44 12 hb k hk
  rw [load8_start_ne _ _ _ _ (by omega) (by omega) (by omega),
    load8_installed_ne _ _ _ (by omega) (by omega),
    load8_reset_state_at _ _ (by omega)]

/-- Reading a byte over the same word store on two memories: the results agree
as soon as the memories agree at that byte when it lies outside the word. -/
theorem load8_store32_both (m m' : Mem) (a v x : Nat)
    (h : 4 ≤ (x % 4294967296 + 4294967296 - a % 4294967296) % 4294967296 →
      load8 m x = load8 m' x) :
    load8 (store32 m a v) x = load8 (store32 m' a v) x := by
  rw [load8_store32, load8_store32]
  split_ifs with hc
  · rfl
  · exact h (by omega)

/-- The table pointer a second run reads equals the one the first run read,
when neither the second block nor the first run's entry word touches the word
`og_state[0x20]`. -/
theorem second_run_table_ptr (m : Mem) (p1 p2 : Nat)
    (h3 : separate p2 0x70 0x2202babc 4)
    (h4 : separate (usb_string_descriptors (installed (host_malloc p1) host_memcpy m).2 + 8) 4
      0x2202babc 4) :
    usb_string_descriptors
      (installed (host_malloc p2) host_memcpy (_start (host_malloc p1) host_memcpy m)).2
      = usb_string_descriptors (installed (host_malloc p1) host_memcpy m).2 := by
  unfold usb_string_descriptors
  simp only [idx, og_state]
  norm_num
  apply load32_eq_of_bytes
  intro j hj
  have a := separate_off _ 4 0x2202babc 4 h4 j hj
  have b := separate_off p2 0x70 0x2202babc 4 h3 j hj
  rw [load8_installed_ne _ _ _ (by omega) (by omega), load8_reset_state_ne _ _ (by omega),
    load8_start_ne _ _ _ _ (by omega) (by omega) (by omega)]

/-- Byte lists read from two memories that agree on the range are equal. -/
theorem bytes_congr (m m' : Mem) (n a : Nat)
    (h : ∀ k, k < n → load8 m (a + k) = load8 m' (a + k)) :
    bytes m a n = bytes m' a n := by
  induction n generalizing a with
  | zero => rfl
  | succ n ih =>
    simp only [bytes]
    have h0 := h 0 (by omega)
    simp only [Nat.add_zero] at h0
    rw [h0, ih (a + 1) (fun k hk => by
      have := h (1 + k) (by omega)
      rwa [← Nat.add_assoc] at this)]

/-- Lines 30-35 are the entry store followed by the block stores. -/
theorem set_descriptor_split (m : Mem) : set_descriptor m = write_block (set_entry m) := rfl

/-- The 16 bytes at `0x2202FFC0` after lines 32-35, on any memory. -/
theorem write_block_bytes (m : Mem) :
    bytes (write_block m) 0x2202FFC0 16
      = [0x10, 0x03, 0x50, 0x00, 0x57, 0x00, 0x4E, 0x00,
         0x20, 0x00, 0x44, 0x00, 0x46, 0x00, 0x55, 0x00] := by
  simp [write_block, idx, bytes, load8_store32]

/-- Frame of the whole routine (allocator result `p`, byte-wise copy): a byte
outside the transfer words, the block, `og_state[9]`, the table entry `T+8`,
the descriptor block and the state-pointer slot keeps its value. -/
theorem load8_start_frame (m : Mem) (p x : Nat)
    (hr : 12 ≤ (x % 4294967296 + 4294967296 - 0x2202ba44) % 4294967296)
    (hb : 0x70 ≤ (x % 4294967296 + 4294967296 - p % 4294967296) % 4294967296)
    (hv : 4 ≤ (x % 4294967296 + 4294967296 - 0x2202ba60) % 4294967296)
    (ht : 4 ≤ (x % 4294967296 + 4294967296
      - (usb_string_descriptors (installed (host_malloc p) host_memcpy m).2 + 8) % 4294967296)
        % 4294967296)
    (hd : 16 ≤ (x % 4294967296 + 4294967296 - 0x2202FFC0) % 4294967296)
    (hs : 4 ≤ (x % 4294967296 + 4294967296 - 0x2202FFF8) % 4294967296) :
    load8 (_start (host_malloc p) host_memcpy m) x = load8 m x := by
  rw [load8_start_ne _ _ _ _ ht hd hs, load8_installed_ne _ _ _ hb hv,
    load8_reset_state_ne _ _ hr]

/-- The table pointer read at line 30 is the word `og_state[0x20]` as it was on
entry, when the block does not cover that word. -/
theorem table_ptr_on_entry (m : Mem) (p : Nat) (h : separate p 0x70 0x2202babc 4) :
    usb_string_descriptors (installed (host_malloc p) host_memcpy m).2
      = load32 m 0x2202babc := by
  unfold usb_string_descriptors
  simp only [idx, og_state]
  norm_num
  apply load32_eq_of_bytes
  intro j hj
  have b := separate_off p 0x70 0x2202babc 4 h j hj
  rw [load8_installed_ne _ _ _ (by omega) (by omega), load8_reset_state_ne _ _ (by omega)]

/-- Frame of lines 30-35: a byte outside the table entry `T+8` and outside the
descriptor block keeps its value. -/
theorem load8_set_descriptor_ne (m : Mem) (x : Nat)
    (ht : 4 ≤ (x % 4294967296 + 4294967296
      - (usb_string_descriptors m + 8) % 4294967296) % 4294967296)
    (hd : 16 ≤ (x % 4294967296 + 4294967296 - 0x2202FFC0) % 4294967296) :
    load8 (set_descriptor m) x = load8 m x := by
  simp only [set_descriptor, idx]
  rw [load8_store32_ne _ _ _ _ (by omega), load8_store32_ne _ _ _ _ (by omega),
    load8_store32_ne _ _ _ _ (by omega), load8_store32_ne _ _ _ _ (by omega),
    load8_store32_ne _ _ _ _ (by omega)]

/-- The table pointer of line 30 is the word at `0x2202babc`. -/
theorem usb_string_descriptors_eq (m : Mem) :
    usb_string_descriptors m = load32 m (0x2202ba3c + 0x80) := by
  unfold usb_string_descriptors
  exact load32_congr _ _ _ (by decide)

/-- Sub-ranges of separate ranges are separate. -/
theorem separate_sub (a la b lb a' la' b' lb' : Nat) (h : separate a la b lb)
    (ha : ∀ i, i < la' → ∃ i0, i0 < la ∧ (a' + i) % 4294967296 = (a + i0) % 4294967296)
    (hb : ∀ j, j < lb' → ∃ j0, j0 < lb ∧ (b' + j) % 4294967296 = (b + j0) % 4294967296) :
    separate a' la' b' lb' := by
  intro i hi j hj
  obtain ⟨i0, hi0, ei⟩ := ha i hi
  obtain ⟨j0, hj0, ej⟩ := hb j hj
  rw [ei, ej]
  exact h i0 hi0 j0 hj0

/-- Word-level frame of lines 30-37: a word separate from the table entry
`T+8`, the descriptor block and the state-pointer slot keeps its value. -/
theorem load32_start_word (malloc : malloc_t) (memcpy : memcpy_t) (m : Mem) (w : Nat)
    (ht : separate (usb_string_descriptors (installed malloc memcpy m).2 + 8) 4 w 4)
    (hd : separate w 4 0x2202FFC0 16) (hs : separate w 4 0x2202FFF8 4) :
    load32 (_start malloc memcpy m) w = load32 (installed malloc memcpy m).2 w := by
  apply load32_eq_of_bytes
  intro j hj
  have a := separate_off _ 4 w 4 ht j hj
  have b := separate_off_left w 4 0x2202FFC0 16 hd j hj
  have c := separate_off_left w 4 0x2202FFF8 4 hs j hj
  exact load8_start_ne _ _ _ _ (by omega) (by omega) (by omega)

/-- The two verify slots right after line 27, when neither shares a byte with
`og_state[9]`. -/
theorem load32_installed_slots (memcpy : memcpy_t) (m : Mem) (p : Nat)
    (h1 : separate (p + 0x14) 4 0x2202ba60 4) (h2 : separate (p + 0x1C) 4 0x2202ba60 4) :
    load32 (installed (host_malloc p) memcpy m).2 (p + 0x14) = 0x200011E0 ∧
    load32 (installed (host_malloc p) memcpy m).2 (p + 0x1C) = 0x200011E0 := by
  constructor
  · rw [installed_mem, load32_store32_sep _ _ _ _ h1,
      load32_store32_ne _ _ _ _ (by omega) (by omega),
      load32_store32_eq _ _ _ _ (by omega)]
  · rw [installed_mem, load32_store32_sep _ _ _ _ h2, load32_store32_eq _ _ _ _ (by omega)]

/-- Byte `i` of the block right after line 27, outside the two slots: template
byte `i` of the initial memory, when the block shares no byte with the
template or with `og_state[9]`. -/
theorem load8_installed_block (m : Mem) (p i : Nat) (hi : i < 112)
    (h1 : ¬ (0x14 ≤ i ∧ i < 0x18)) (h2 : ¬ (0x1C ≤ i ∧ i < 0x20))
    (hT : separate p 0x70 0x20000020 0x70) (hv : separate p 0x70 0x2202ba60 4) :
    load8 (installed (host_malloc p) host_memcpy m).2 (p + i) = load8 m (0x20000020 + i) := by
  have hsep : separate (p % 4294967296) 0x70 0x20000020 0x70 := by
    intro a ha b hb
    have := hT a ha b hb
    omega
  have a := separate_off_left p 0x70 0x2202ba60 4 hv i (by omega)
  rw [installed_mem, load8_store32_ne _ _ _ _ (by omega), load8_store32_ne _ _ _ _ (by omega),
    load8_store32_ne _ _ _ _ (by omega),
    load8_congr _ (p + i) (p % 4294967296 + i) (by omega),
    load8_host_memcpy_at _ _ _ 112 i hi (by omega) hsep,
    load8_reset_state_ne _ _ (by omega)]

/-! ## Claims -/

/-- C1 (as stated, refuted): with the allocator returning `p = 0x2202ba4c`, the
header-verify slot `p + 0x14` is the word `og_state[9]` itself, so the store of
line 27 replaces the stub address there: after lines 16-27 that word holds
`p`, and the slot reached through it holds `0x2202ba4c`, not `0x200011E0`. -/
theorem verify_slots_counterexample :
    load32 (installed (host_malloc 0x2202ba4c) host_memcpy ⟨fun _ => 0⟩).2 (0x2202ba3c + 0x24)
      = 0x2202ba4c ∧
    load32 (installed (host_malloc 0x2202ba4c) host_memcpy ⟨fun _ => 0⟩).2 (0x2202ba4c + 0x14)
      ≠ 0x200011E0 ∧
    img_verify_header (fun f _ => if f = 0x200011E0 then 1 else 0)
      (installed (host_malloc 0x2202ba4c) host_memcpy ⟨fun _ => 0⟩).2 0 = 0 := by
  decide

/-- C1 (amended): for every initial memory, copy routine and allocator result
`p` such that neither patched slot (`p+0x14`, `p+0x1C`) shares a byte with the
word `og_state[9]` at `0x2202ba3c + 0x24`: after lines 16-27 that word holds
`p`, the words at `p+0x14` and `p+0x1C` both hold `0x200011E0`, and if the
code at `0x200011E0` returns non-zero for every argument, both verify calls
dispatched through `og_state[9]` return non-zero for every argument. -/
theorem verify_slots_patched (memcpy : memcpy_t) (m : Mem) (p : Nat)
    (h1 : separate (p + 0x14) 4 (0x2202ba3c + 0x24) 4)
    (h2 : separate (p + 0x1C) 4 (0x2202ba3c + 0x24) 4) :
    load32 (installed (host_malloc p) memcpy m).2 (0x2202ba3c + 0x24) = p % 4294967296 ∧
    load32 (installed (host_malloc p) memcpy m).2 (p + 0x14) = 0x200011E0 ∧
    load32 (installed (host_malloc p) memcpy m).2 (p + 0x1C) = 0x200011E0 ∧
    ∀ code : code_t, (∀ x, code 0x200011E0 x ≠ 0) →
      ∀ x, img_verify_header code (installed (host_malloc p) memcpy m).2 x ≠ 0 ∧
        img_verify_certificate code (installed (host_malloc p) memcpy m).2 x ≠ 0 := by
  have hp : load32 (installed (host_malloc p) memcpy m).2 (0x2202ba3c + 0x24)
      = p % 4294967296 := by
    rw [installed_mem, load32_store32_eq _ _ _ _ (by norm_num), Nat.mod_mod]
  have hA : load32 (installed (host_malloc p) memcpy m).2 (p + 0x14) = 0x200011E0 := by
    rw [installed_mem, load32_store32_sep _ _ _ _ h1,
      load32_store32_ne _ _ _ _ (by omega) (by omega),
      load32_store32_eq _ _ _ _ (by omega)]
  have hB : load32 (installed (host_malloc p) memcpy m).2 (p + 0x1C) = 0x200011E0 := by
    rw [installed_mem, load32_store32_sep _ _ _ _ h2, load32_store32_eq _ _ _ _ (by omega)]
  refine ⟨hp, hA, hB, ?_⟩
  intro code hc x
  have hq : load32 (installed (host_malloc p) memcpy m).2 (idx og_state (0x24 / 4))
      = p % 4294967296 := hp
  unfold img_verify_header img_verify_certificate
  rw [hq, load32_congr _ (p % 4294967296 + 0x14) (p + 0x14) (by omega),
    load32_congr _ (p % 4294967296 + 0x1C) (p + 0x1C) (by omega), hA, hB]
  exact ⟨hc x, hc x⟩

/-- Witness for C1 (amended): a block at the heap base `0x2202d900`, zero
memory, and code that returns 1 everywhere. -/
theorem verify_slots_patched_witness :
    separate (0x2202d900 + 0x14) 4 (0x2202ba3c + 0x24) 4 ∧
    separate (0x2202d900 + 0x1C) 4 (0x2202ba3c + 0x24) 4 ∧
    load32 (installed (host_malloc 0x2202d900) host_memcpy ⟨fun _ => 0⟩).2 (0x2202d900 + 0x14)
      = 0x200011E0 ∧
    img_verify_header (fun _ _ => 1)
      (installed (host_malloc 0x2202d900) host_memcpy ⟨fun _ => 0⟩).2 7 ≠ 0 :=
  ⟨by decide, by decide,
   (verify_slots_patched host_memcpy ⟨fun _ => 0⟩ 0x2202d900 (by decide) (by decide)).2.1,
   ((verify_slots_patched host_memcpy ⟨fun _ => 0⟩ 0x2202d900 (by decide) (by decide)).2.2.2
      (fun _ _ => 1) (fun _ => Nat.one_ne_zero) 7).1⟩

/-- C2: with the allocator returning `p` and the byte-wise copy, when the block
`[p, p+0x70)` shares no address with the template `[0x20000020, 0x20000090)`,
after lines 21-24 every byte `i < 112` of the new context outside `0x14..0x17`
and `0x1C..0x1F` equals template byte `i`, both as the template was before and
as it is afterwards. -/
theorem patcher_copy_identical (m : Mem) (p : Nat)
    (hd : separate p 0x70 0x20000020 0x70) (i : Nat) (hi : i < 112)
    (h1 : ¬ (0x14 ≤ i ∧ i < 0x18)) (h2 : ¬ (0x1C ≤ i ∧ i < 0x20)) :
    load8 (patcher (host_malloc p) host_memcpy m).2 (p + i) = load8 m (0x20000020 + i) ∧
    load8 (patcher (host_malloc p) host_memcpy m).2 (0x20000020 + i)
      = load8 m (0x20000020 + i) := by
  have hsep : separate (p % 4294967296) 0x70 0x20000020 0x70 := by
    intro a ha b hb
    have := hd a ha b hb
    omega
  have hoff := separate_off p 0x70 0x20000020 0x70 hd i (by omega)
  simp only [patcher, copy_ctx, host_malloc, patch_ctx, idx]
  norm_num
  constructor
  · rw [load8_store32_ne _ _ _ _ (by omega), load8_store32_ne _ _ _ _ (by omega),
      load8_congr _ (p + i) (p % 4294967296 + i) (by omega)]
    exact load8_host_memcpy_at m _ _ 112 i hi (by omega) hsep
  · rw [load8_store32_ne _ _ _ _ (by omega), load8_store32_ne _ _ _ _ (by omega),
      load8_host_memcpy_ne _ _ _ _ _ (by omega)]

/-- Witness for C2: a block at the heap base, the memory whose byte at `a` is
`a % 256`, and byte offset `0x18` (the word between the two patched slots). -/
theorem patcher_copy_identical_witness :
    separate 0x2202d900 0x70 0x20000020 0x70 ∧
    load8 (patcher (host_malloc 0x2202d900) host_memcpy ⟨fun a => a⟩).2 (0x2202d900 + 0x18)
      = load8 ⟨fun a => a⟩ (0x20000020 + 0x18) :=
  ⟨by intro i hi j hj; omega,
   (patcher_copy_identical ⟨fun a => a⟩ 0x2202d900 (by intro i hi j hj; omega) 0x18
      (by decide) (by decide) (by decide)).1⟩

/-- C3: after the three stores of lines 16-18, the words `og_state[2]`
(transferredBytes), `og_state[3]` (pendingSize) and `og_state[4]`
(uploadComplete) of the state at `0x2202ba3c` all read 0, for every initial
memory. -/
theorem reset_state_clears_transfer (m : Mem) :
    load32 (reset_state m) (0x2202ba3c + 4 * 2) = 0 ∧
    load32 (reset_state m) (0x2202ba3c + 4 * 3) = 0 ∧
    load32 (reset_state m) (0x2202ba3c + 4 * 4) = 0 := by
  simp only [reset_state, idx, og_state]
  norm_num
  refine ⟨?_, ?_, ?_⟩
  · rw [load32_store32_ne _ _ _ _ (by omega) (by omega),
      load32_store32_ne _ _ _ _ (by omega) (by omega), load32_store32_same]
  · rw [load32_store32_ne _ _ _ _ (by omega) (by omega), load32_store32_same]
  · rw [load32_store32_same]

/-- C4 (as stated, refuted): initial memory all zero except the table-pointer
word `og_state[0x20]`, which holds `0x2202bab4`, block at the heap base.  The
entry word `0x2202bab4 + 8 = 0x2202babc` overlaps neither the descriptor block
nor the state-pointer slot, but it is the table-pointer word itself: line 31
stores `0x2202FFC0` into it, so at exit the table the state points to is at
`0x2202FFC0`, and its entry 2 (at `0x2202FFC8`) holds `0x00440020`. -/
theorem table_ptr_alias_counterexample :
    load32 (installed (host_malloc 0x2202d900) host_memcpy
      (store32 ⟨fun _ => 0⟩ 0x2202babc 0x2202bab4)).2 (0x2202ba3c + 0x80) = 0x2202bab4 ∧
    separate (0x2202bab4 + 8) 4 0x2202FFC0 16 ∧
    separate (0x2202bab4 + 8) 4 0x2202FFF8 4 ∧
    load32 (_start (host_malloc 0x2202d900) host_memcpy
      (store32 ⟨fun _ => 0⟩ 0x2202babc 0x2202bab4)) (0x2202ba3c + 0x80) = 0x2202FFC0 ∧
    load32 (_start (host_malloc 0x2202d900) host_memcpy
      (store32 ⟨fun _ => 0⟩ 0x2202babc 0x2202bab4))
      (load32 (_start (host_malloc 0x2202d900) host_memcpy
        (store32 ⟨fun _ => 0⟩ 0x2202babc 0x2202bab4)) (0x2202ba3c + 0x80) + 8)
      ≠ 0x2202FFC0 := by
  decide

/-- C4 (amended): let `T` be the value of the table-pointer word
`og_state[0x20]` (at `0x2202ba3c + 0x80`) when line 30 reads it.  For every
allocator, copy routine and initial memory in which the entry word `T+8`
shares no byte with the descriptor block `0x2202FFC0..CF`, with the
state-pointer slot `0x2202FFF8..FB` or with the table-pointer word itself, at
the end of `_start` the table-pointer word still holds `T`, entry 2 of the
table it points to holds `0x2202FFC0`, the 16 bytes there are
`10 03 50 00 57 00 4E 00 20 00 44 00 46 00 55 00` (bLength 16 = 2 + 2*7,
bDescriptorType 3, seven UTF-16LE code units), and a USB reader decodes them
to "PWN DFU".  With the allocator returning `p` and the byte-wise copy, `T` is
the value that word has in the initial memory whenever the block does not
cover it. -/
theorem spoofed_descriptor (malloc : malloc_t) (memcpy : memcpy_t) (m : Mem)
    (h1 : separate (load32 (installed malloc memcpy m).2 (0x2202ba3c + 0x80) + 8) 4
      0x2202FFC0 16)
    (h2 : separate (load32 (installed malloc memcpy m).2 (0x2202ba3c + 0x80) + 8) 4
      0x2202FFF8 4)
    (h3 : separate (load32 (installed malloc memcpy m).2 (0x2202ba3c + 0x80) + 8) 4
      (0x2202ba3c + 0x80) 4) :
    load32 (_start malloc memcpy m) (0x2202ba3c + 0x80)
      = load32 (installed malloc memcpy m).2 (0x2202ba3c + 0x80) ∧
    load32 (_start malloc memcpy m) (load32 (_start malloc memcpy m) (0x2202ba3c + 0x80) + 8)
      = 0x2202FFC0 ∧
    bytes (_start malloc memcpy m) 0x2202FFC0 16
      = [0x10, 0x03, 0x50, 0x00, 0x57, 0x00, 0x4E, 0x00,
         0x20, 0x00, 0x44, 0x00, 0x46, 0x00, 0x55, 0x00] ∧
    16 = 2 + 2 * "PWN DFU".length ∧
    usb_string (_start malloc memcpy m) 0x2202FFC0 = some "PWN DFU" ∧
    (∀ p, separate p 0x70 (0x2202ba3c + 0x80) 4 →
      load32 (installed (host_malloc p) host_memcpy m).2 (0x2202ba3c + 0x80)
        = load32 m (0x2202ba3c + 0x80)) := by
  have hb := start_descriptor_bytes malloc memcpy m
  rw [← usb_string_descriptors_eq] at h1 h2 h3
  have hp : load32 (_start malloc memcpy m) (0x2202ba3c + 0x80)
      = load32 (installed malloc memcpy m).2 (0x2202ba3c + 0x80) :=
    load32_start_word malloc memcpy m _ h3 (by intro i hi j hj; omega)
      (by intro i hi j hj; omega)
  refine ⟨hp, ?_, hb, by decide, ?_, ?_⟩
  · rw [hp, ← usb_string_descriptors_eq]
    exact load32_start_entry malloc memcpy m h1 h2
  · have h16 : load8 (_start malloc memcpy m) 0x2202FFC0 = 16 := by
      have := congrArg List.head? hb
      simpa [bytes] using this
    unfold usb_string
    rw [h16, hb]
    decide
  · intro p hp0
    rw [← usb_string_descriptors_eq]
    exact table_ptr_on_entry m p hp0

/-- Witness for C4 (amended): memory whose byte at `a` is `a % 256` (the
table-pointer word holds `0xbfbebdbc`, the entry word is at `0xbfbebdc4`),
block at the heap base. -/
theorem spoofed_descriptor_witness :
    load32 (_start (host_malloc 0x2202d900) host_memcpy ⟨fun a => a⟩) (0x2202ba3c + 0x80)
      = 0xbfbebdbc ∧
    load32 (_start (host_malloc 0x2202d900) host_memcpy ⟨fun a => a⟩) (0xbfbebdbc + 8)
      = 0x2202FFC0 ∧
    usb_string (_start (host_malloc 0x2202d900) host_memcpy ⟨fun a => a⟩) 0x2202FFC0
      = some "PWN DFU" := by
  have hT : load32 (installed (host_malloc 0x2202d900) host_memcpy ⟨fun a => a⟩).2
      (0x2202ba3c + 0x80) = 0xbfbebdbc := by decide
  have W := spoofed_descriptor (host_malloc 0x2202d900) host_memcpy ⟨fun a => a⟩
    (by rw [hT]; decide) (by rw [hT]; decide) (by rw [hT]; decide)
  have e := W.1.trans hT
  have w2 := W.2.1
  rw [e] at w2
  exact ⟨e, w2, W.2.2.2.2.1⟩

/-- C5: at the end of `_start`, whatever the allocator and the copy routine
did and whatever the initial memory (hence whatever table pointer was read),
the word at `0x2202FFF8` holds `0x2202ba3c`, the address of the device state. -/
theorem start_publishes_state (malloc : malloc_t) (memcpy : memcpy_t) (m : Mem) :
    load32 (_start malloc memcpy m) 0x2202FFF8 = 0x2202ba3c := by
  simp only [_start, publish_state, idx, state_ptr, og_state]
  norm_num
  rw [load32_store32_same]

/-- C6: right after the store of line 27, the word at `0x2202ba3c + 0x24`
(`og_state[9]`) holds the 32-bit pointer the allocator returned, for every
initial memory and whatever that word held before. -/
theorem installed_ctx_ptr (malloc : malloc_t) (memcpy : memcpy_t) (m : Mem) :
    load32 (installed malloc memcpy m).2 (0x2202ba3c + 0x24)
      = (malloc (reset_state m) 0x70).1 % 4294967296 ∧
    (installed malloc memcpy m).1 = (malloc (reset_state m) 0x70).1 % 4294967296 := by
  simp only [installed, install_ctx, patcher, copy_ctx, idx, og_state]
  norm_num
  rw [load32_store32_same]
  exact Nat.mod_mod _ _

/-- C7 (as stated, refuted): initial memory all zero except the table-pointer
word `og_state[0x20]`, which holds `0x2202d90c`, block at the heap base
`0x2202d900`.  The block and the entry word `0x2202d90c + 8 = 0x2202d914`
overlap none of the fixed words the routine stores to, but the entry word is
the header-verify slot `p + 0x14` of the new context: line 31 replaces the
stub address line 23 stored there, so at exit `og_state[9]` holds `p` while
the slot at `p + 0x14` holds `0x2202FFC0`. -/
theorem entry_clobbers_slot_counterexample :
    load32 (installed (host_malloc 0x2202d900) host_memcpy
      (store32 ⟨fun _ => 0⟩ 0x2202babc 0x2202d90c)).2 (0x2202ba3c + 0x80) = 0x2202d90c ∧
    separate 0x2202d900 0x70 (0x2202ba3c + 4 * 2) 12 ∧
    separate 0x2202d900 0x70 (0x2202ba3c + 0x24) 4 ∧
    separate 0x2202d900 0x70 0x2202FFC0 16 ∧
    separate 0x2202d900 0x70 0x2202FFF8 4 ∧
    separate (0x2202d90c + 8) 4 (0x2202ba3c + 4 * 2) 12 ∧
    separate (0x2202d90c + 8) 4 (0x2202ba3c + 0x24) 4 ∧
    separate (0x2202d90c + 8) 4 0x2202FFC0 16 ∧
    separate (0x2202d90c + 8) 4 0x2202FFF8 4 ∧
    load32 (_start (host_malloc 0x2202d900) host_memcpy
      (store32 ⟨fun _ => 0⟩ 0x2202babc 0x2202d90c)) (0x2202ba3c + 0x24) = 0x2202d900 ∧
    load32 (_start (host_malloc 0x2202d900) host_memcpy
      (store32 ⟨fun _ => 0⟩ 0x2202babc 0x2202d90c)) (0x2202d900 + 0x14) = 0x2202FFC0 ∧
    load32 (_start (host_malloc 0x2202d900) host_memcpy
      (store32 ⟨fun _ => 0⟩ 0x2202babc 0x2202d90c)) (0x2202d900 + 0x14) ≠ 0x200011E0 := by
  refine ⟨by decide, ?_, ?_, ?_, ?_, by decide, by decide, by decide, by decide,
    by decide, by decide, by decide⟩
  all_goals (intro i hi j hj; omega)

/-- C7 (amended): let `T` be the value of the table-pointer word
`og_state[0x20]` (at `0x2202ba3c + 0x80`) when line 30 reads it, with the
allocator returning `p` and the byte-wise copy.  For every initial memory in
which the block `[p, p+0x70)` and the entry word `T+8` share no byte with any
fixed word the routine stores to (the transfer words `og_state[2..4]`,
`og_state[9]`, the descriptor block, the state-pointer slot), and the entry
word shares no byte with the block or with the table-pointer word, at exit of
`_start`: the three transfer words are 0; `og_state[9]` holds `p`; the slots
at `p+0x14` and `p+0x1C` hold `0x200011E0`; if moreover the block shares no
byte with the template, every other byte of the block is the template byte of
the initial memory; the table-pointer word still holds `T`; and entry 2 of the
table it points to holds `0x2202FFC0`.  `T` is the value that word has in the
initial memory whenever the block does not cover it. -/
theorem post_patch_invariant (m : Mem) (p : Nat)
    (hb1 : separate p 0x70 (0x2202ba3c + 4 * 2) 12)
    (hb2 : separate p 0x70 (0x2202ba3c + 0x24) 4)
    (hb3 : separate p 0x70 0x2202FFC0 16)
    (hb4 : separate p 0x70 0x2202FFF8 4)
    (ht1 : separate (load32 (installed (host_malloc p) host_memcpy m).2 (0x2202ba3c + 0x80) + 8)
      4 (0x2202ba3c + 4 * 2) 12)
    (ht2 : separate (load32 (installed (host_malloc p) host_memcpy m).2 (0x2202ba3c + 0x80) + 8)
      4 (0x2202ba3c + 0x24) 4)
    (ht3 : separate (load32 (installed (host_malloc p) host_memcpy m).2 (0x2202ba3c + 0x80) + 8)
      4 0x2202FFC0 16)
    (ht4 : separate (load32 (installed (host_malloc p) host_memcpy m).2 (0x2202ba3c + 0x80) + 8)
      4 0x2202FFF8 4)
    (ht5 : separate (load32 (installed (host_malloc p) host_memcpy m).2 (0x2202ba3c + 0x80) + 8)
      4 p 0x70)
    (ht6 : separate (load32 (installed (host_malloc p) host_memcpy m).2 (0x2202ba3c + 0x80) + 8)
      4 (0x2202ba3c + 0x80) 4) :
    load32 (_start (host_malloc p) host_memcpy m) (0x2202ba3c + 4 * 2) = 0 ∧
    load32 (_start (host_malloc p) host_memcpy m) (0x2202ba3c + 4 * 3) = 0 ∧
    load32 (_start (host_malloc p) host_memcpy m) (0x2202ba3c + 4 * 4) = 0 ∧
    load32 (_start (host_malloc p) host_memcpy m) (0x2202ba3c + 0x24) = p % 4294967296 ∧
    load32 (_start (host_malloc p) host_memcpy m) (p + 0x14) = 0x200011E0 ∧
    load32 (_start (host_malloc p) host_memcpy m) (p + 0x1C) = 0x200011E0 ∧
    (separate p 0x70 0x20000020 0x70 →
      ∀ i, i < 112 → ¬ (0x14 ≤ i ∧ i < 0x18) → ¬ (0x1C ≤ i ∧ i < 0x20) →
        load8 (_start (host_malloc p) host_memcpy m) (p + i) = load8 m (0x20000020 + i)) ∧
    load32 (_start (host_malloc p) host_memcpy m) (0x2202ba3c + 0x80)
      = load32 (installed (host_malloc p) host_memcpy m).2 (0x2202ba3c + 0x80) ∧
    load32 (_start (host_malloc p) host_memcpy m)
      (load32 (_start (host_malloc p) host_memcpy m) (0x2202ba3c + 0x80) + 8) = 0x2202FFC0 ∧
    (separate p 0x70 (0x2202ba3c + 0x80) 4 →
      load32 (installed (host_malloc p) host_memcpy m).2 (0x2202ba3c + 0x80)
        = load32 m (0x2202ba3c + 0x80)) := by
  rw [← usb_string_descriptors_eq] at ht1 ht2 ht3 ht4 ht5 ht6
  have hp : load32 (_start (host_malloc p) host_memcpy m) (0x2202ba3c + 0x80)
      = load32 (installed (host_malloc p) host_memcpy m).2 (0x2202ba3c + 0x80) :=
    load32_start_word _ _ m _ ht6 (by intro i hi j hj; omega) (by intro i hi j hj; omega)
  have hs1 := load32_installed_slots host_memcpy m p
    (separate_sub _ _ _ _ (p + 0x14) 4 0x2202ba60 4 hb2
      (fun i hi => ⟨0x14 + i, by omega, by omega⟩) (fun j hj => ⟨j, hj, rfl⟩))
    (separate_sub _ _ _ _ (p + 0x1C) 4 0x2202ba60 4 hb2
      (fun i hi => ⟨0x1C + i, by omega, by omega⟩) (fun j hj => ⟨j, hj, rfl⟩))
  refine ⟨?_, ?_, ?_, load32_start_ctx_ptr p host_memcpy m ht2, ?_, ?_, ?_, hp, ?_, ?_⟩
  · apply load32_eq_zero
    intro j hj
    exact load8_start_transfer m p j (by omega) hb1 ht1
  · apply load32_eq_zero
    intro j hj
    have := load8_start_transfer m p (4 + j) (by omega) hb1 ht1
    rw [← this]
    exact load8_congr _ _ _ (by omega)
  · apply load32_eq_zero
    intro j hj
    have := load8_start_transfer m p (8 + j) (by omega) hb1 ht1
    rw [← this]
    exact load8_congr _ _ _ (by omega)
  · rw [load32_start_word _ _ m (p + 0x14)
      (separate_sub _ _ _ _ _ 4 (p + 0x14) 4 ht5
        (fun i hi => ⟨i, hi, rfl⟩) (fun j hj => ⟨0x14 + j, by omega, by omega⟩))
      (separate_sub _ _ _ _ (p + 0x14) 4 0x2202FFC0 16 hb3
        (fun i hi => ⟨0x14 + i, by omega, by omega⟩) (fun j hj => ⟨j, hj, rfl⟩))
      (separate_sub _ _ _ _ (p + 0x14) 4 0x2202FFF8 4 hb4
        (fun i hi => ⟨0x14 + i, by omega, by omega⟩) (fun j hj => ⟨j, hj, rfl⟩))]
    exact hs1.1
  · rw [load32_start_word _ _ m (p + 0x1C)
      (separate_sub _ _ _ _ _ 4 (p + 0x1C) 4 ht5
        (fun i hi => ⟨i, hi, rfl⟩) (fun j hj => ⟨0x1C + j, by omega, by omega⟩))
      (separate_sub _ _ _ _ (p + 0x1C) 4 0x2202FFC0 16 hb3
        (fun i hi => ⟨0x1C + i, by omega, by omega⟩) (fun j hj => ⟨j, hj, rfl⟩))
      (separate_sub _ _ _ _ (p + 0x1C) 4 0x2202FFF8 4 hb4
        (fun i hi => ⟨0x1C + i, by omega, by omega⟩) (fun j hj => ⟨j, hj, rfl⟩))]
    exact hs1.2
  · intro hT i hi h1 h2
    have a := separate_off _ 4 p 0x70 ht5 i (by omega)
    have b := separate_off_left p 0x70 0x2202FFC0 16 hb3 i (by omega)
    have c := separate_off_left p 0x70 0x2202FFF8 4 hb4 i (by omega)
    rw [load8_start_ne _ _ _ _ (by omega) (by omega) (by omega)]
    exact load8_installed_block m p i hi h1 h2 hT hb2
  · rw [hp, ← usb_string_descriptors_eq]
    exact load32_start_entry _ _ m ht3 ht4
  · intro hp0
    rw [← usb_string_descriptors_eq]
    exact table_ptr_on_entry m p hp0

/-- Witness for C7 (amended): block at the heap base, memory whose byte at `a`
is `a % 256` (so the transfer words start non-zero and the table-pointer word
holds `0xbfbebdbc`). -/
theorem post_patch_invariant_witness :
    load32 ⟨fun a => a⟩ (0x2202ba3c + 4 * 2) ≠ 0 ∧
    load32 (_start (host_malloc 0x2202d900) host_memcpy ⟨fun a => a⟩) (0x2202ba3c + 4 * 2) = 0 ∧
    load32 (_start (host_malloc 0x2202d900) host_memcpy ⟨fun a => a⟩) (0x2202ba3c + 0x24)
      = 0x2202d900 ∧
    load32 (_start (host_malloc 0x2202d900) host_memcpy ⟨fun a => a⟩) (0x2202d900 + 0x14)
      = 0x200011E0 ∧
    load8 (_start (host_malloc 0x2202d900) host_memcpy ⟨fun a => a⟩) (0x2202d900 + 0x18)
      = load8 ⟨fun a => a⟩ (0x20000020 + 0x18) ∧
    load32 (_start (host_malloc 0x2202d900) host_memcpy ⟨fun a => a⟩) (0x2202ba3c + 0x80)
      = 0xbfbebdbc ∧
    load32 (_start (host_malloc 0x2202d900) host_memcpy ⟨fun a => a⟩) (0xbfbebdbc + 8)
      = 0x2202FFC0 := by
  have hT : load32 (installed (host_malloc 0x2202d900) host_memcpy ⟨fun a => a⟩).2
      (0x2202ba3c + 0x80) = 0xbfbebdbc := by decide
  have W := post_patch_invariant ⟨fun a => a⟩ 0x2202d900
    (by intro i hi j hj; omega) (by intro i hi j hj; omega) (by intro i hi j hj; omega)
    (by intro i hi j hj; omega)
    (by rw [hT]; decide) (by rw [hT]; decide) (by rw [hT]; decide) (by rw [hT]; decide)
    (by rw [hT]; intro i hi j hj; omega) (by rw [hT]; decide)
  have e := W.2.2.2.2.2.2.2.1.trans hT
  have w9 := W.2.2.2.2.2.2.2.2.1
  rw [e] at w9
  exact ⟨by decide, W.1, W.2.2.2.1, W.2.2.2.2.1,
    W.2.2.2.2.2.2.1 (by intro i hi j hj; omega) 0x18 (by decide) (by decide) (by decide),
    e, w9⟩

set_option maxRecDepth 100000 in
/-- C8 (as stated, refuted): from zero memory, a first run with the block at
`0x2202d900` and a second with the block at `0x2202d970`: the word
`og_state[9]` lies outside the second block, holds `0x2202d900` after one run
and `0x2202d970` after two, so the two final memories do not agree outside the
second block. -/
theorem idempotence_counterexample :
    load32 (_start (host_malloc 0x2202d900) host_memcpy ⟨fun _ => 0⟩) (0x2202ba3c + 0x24)
      = 0x2202d900 ∧
    load32 (_start (host_malloc 0x2202d970) host_memcpy
      (_start (host_malloc 0x2202d900) host_memcpy ⟨fun _ => 0⟩)) (0x2202ba3c + 0x24)
      = 0x2202d970 ∧
    ¬ agree_outside
      (_start (host_malloc 0x2202d970) host_memcpy
        (_start (host_malloc 0x2202d900) host_memcpy ⟨fun _ => 0⟩))
      (_start (host_malloc 0x2202d900) host_memcpy ⟨fun _ => 0⟩) 0x2202d970 0x70 := by
  refine ⟨by decide, by decide, ?_⟩
  intro h
  have h1 := h (0x2202ba3c + 0x24) (by intro i hi; omega)
  revert h1
  decide

/-- C8 (amended): let `p1`, `p2` be the allocator results of the first and the
second run and `T` the table pointer the first run reads.  For every initial
memory in which the first block shares no byte with the transfer words
`og_state[2..4]`, and neither the second block nor the entry word `T+8` shares
a byte with the table-pointer word `og_state[0x20]`, the memory after two runs
and the memory after one run hold the same byte at every address outside the
second block `[p2, p2+0x70)` and outside the four bytes of `og_state[9]`. -/
theorem idempotent_outside_ctx (m : Mem) (p1 p2 : Nat)
    (h1 : separate p1 0x70 (0x2202ba3c + 4 * 2) 12)
    (h3 : separate p2 0x70 (0x2202ba3c + 4 * 0x20) 4)
    (h4 : separate (usb_string_descriptors (installed (host_malloc p1) host_memcpy m).2 + 8) 4
      (0x2202ba3c + 4 * 0x20) 4)
    (x : Nat)
    (hx2 : ∀ i, i < 0x70 → x % 4294967296 ≠ (p2 + i) % 4294967296)
    (hxv : ∀ i, i < 4 → x % 4294967296 ≠ (0x2202ba3c + 0x24 + i) % 4294967296) :
    load8 (_start (host_malloc p2) host_memcpy (_start (host_malloc p1) host_memcpy m)) x
      = load8 (_start (host_malloc p1) host_memcpy m) x := by
  have hT := second_run_table_ptr m p1 p2 h3 h4
  have hb2 : 0x70 ≤ (x % 4294967296 + 4294967296 - p2 % 4294967296) % 4294967296 := by
    by_contra hc
    exact hx2 ((x % 4294967296 + 4294967296 - p2 % 4294967296) % 4294967296)
      (by omega) (by omega)
  have hv : 4 ≤ (x % 4294967296 + 4294967296 - 0x2202ba60) % 4294967296 := by
    by_contra hc
    exact hxv ((x % 4294967296 + 4294967296 - 0x2202ba60) % 4294967296) (by omega) (by omega)
  rw [start_mem (host_malloc p2), hT]
  conv_rhs => rw [start_mem (host_malloc p1)]
  apply load8_store32_both; intro c1
  apply load8_store32_both; intro c2
  apply load8_store32_both; intro c3
  apply load8_store32_both; intro c4
  apply load8_store32_both; intro c5
  apply load8_store32_both; intro c6
  rw [load8_installed_ne _ _ _ hb2 hv]
  by_cases ht : (x % 4294967296 + 4294967296 - 0x2202ba44) % 4294967296 < 12
  · have b := separate_off p1 0x70 (0x2202ba3c + 4 * 2) 12 h1
      ((x % 4294967296 + 4294967296 - 0x2202ba44) % 4294967296) ht
    rw [load8_reset_state_at _ _ ht, load8_installed_ne _ _ _ (by omega) hv,
      load8_reset_state_at _ _ ht]
  · rw [load8_reset_state_ne _ _ (by omega),
      load8_start_ne _ _ _ _ (by omega) (by omega) (by omega)]

/-- Witness for C8 (amended): zero memory, blocks at `0x2202d900` and
`0x2202d970`, and the first transfer byte `0x2202ba44`. -/
theorem idempotent_outside_ctx_witness :
    load8 (_start (host_malloc 0x2202d970) host_memcpy
      (_start (host_malloc 0x2202d900) host_memcpy ⟨fun _ => 0⟩)) 0x2202ba44
      = load8 (_start (host_malloc 0x2202d900) host_memcpy ⟨fun _ => 0⟩) 0x2202ba44 :=
  idempotent_outside_ctx ⟨fun _ => 0⟩ 0x2202d900 0x2202d970
    (by intro i hi j hj; omega) (by intro i hi j hj; omega) (by decide) 0x2202ba44
    (by intro i hi; omega) (by intro i hi; omega)

/-- C10: the allocator result is never tested.  For every allocator result `p`
the final memory is one and the same chain of stores with `p` filled in, and
with the null reference `p = 0`, for every initial memory: after lines 16-27
`new_ctx` is 0, the bytes at `0x00..0x6F` outside the two slots are the 112
template bytes, the words at `0x14` and `0x1C` hold `0x200011E0`, and
`og_state[9]` holds 0; the routine then runs on to its end, where the
descriptor block holds the "PWN DFU" bytes and the state-pointer slot holds
`0x2202ba3c`. -/
theorem null_allocation_unchecked (m : Mem) :
    (∀ p, _start (host_malloc p) host_memcpy m
      = store32 (store32 (store32 (store32 (store32 (store32 (store32 (store32 (store32
          (host_memcpy (reset_state m) (p % 4294967296) 0x20000020 0x70)
          ((p % 4294967296 + 0x14) % 4294967296) 0x200011E0)
          ((p % 4294967296 + 0x1C) % 4294967296) 0x200011E0)
          (0x2202ba3c + 0x24) (p % 4294967296))
          ((usb_string_descriptors (installed (host_malloc p) host_memcpy m).2 + 8)
            % 4294967296) 0x2202FFC0)
          0x2202FFC0 0x00500310) 0x2202FFC4 0x004E0057) 0x2202FFC8 0x00440020)
          0x2202FFCC 0x00550046) 0x2202FFF8 0x2202ba3c) ∧
    (installed (host_malloc 0) host_memcpy m).1 = 0 ∧
    (∀ i, i < 112 → ¬ (0x14 ≤ i ∧ i < 0x18) → ¬ (0x1C ≤ i ∧ i < 0x20) →
      load8 (installed (host_malloc 0) host_memcpy m).2 i = load8 m (0x20000020 + i)) ∧
    load32 (installed (host_malloc 0) host_memcpy m).2 0x14 = 0x200011E0 ∧
    load32 (installed (host_malloc 0) host_memcpy m).2 0x1C = 0x200011E0 ∧
    load32 (installed (host_malloc 0) host_memcpy m).2 (0x2202ba3c + 0x24) = 0 ∧
    bytes (_start (host_malloc 0) host_memcpy m) 0x2202FFC0 16
      = [0x10, 0x03, 0x50, 0x00, 0x57, 0x00, 0x4E, 0x00,
         0x20, 0x00, 0x44, 0x00, 0x46, 0x00, 0x55, 0x00] ∧
    load32 (_start (host_malloc 0) host_memcpy m) 0x2202FFF8 = 0x2202ba3c := by
  refine ⟨?_, ?_, ?_, ?_, ?_, ?_, start_descriptor_bytes _ _ m, ?_⟩
  · intro p
    rw [start_mem, installed_mem]
  · simp [installed, patcher, copy_ctx, host_malloc]
  · intro i hi h1 h2
    rw [installed_mem]
    norm_num
    rw [load8_store32_ne _ _ _ _ (by omega), load8_store32_ne _ _ _ _ (by omega),
      load8_store32_ne _ _ _ _ (by omega)]
    have h := load8_host_memcpy_at (reset_state m) 0 0x20000020 112 i hi (by omega)
      (by intro a ha b hb; omega)
    rw [load8_congr _ i (0 + i) (by omega), h, load8_reset_state_ne _ _ (by omega)]
  · rw [installed_mem]
    norm_num
    rw [load32_store32_ne _ _ _ _ (by omega) (by omega),
      load32_store32_ne _ _ _ _ (by omega) (by omega), load32_store32_same]
  · rw [installed_mem]
    norm_num
    rw [load32_store32_ne _ _ _ _ (by omega) (by omega), load32_store32_same]
  · rw [installed_mem]
    norm_num
    rw [load32_store32_same]
  · rw [start_mem, load32_store32_same]

/-- C11 (as stated, refuted): from zero memory with the block at the heap base,
in the state right after line 31 entry 2 of the table (the table pointer read
is 0, the entry word is at address 8) already holds `0x2202FFC0`, while the
16 bytes at `0x2202FFC0` are still all 0 and decode to no descriptor. -/
theorem entry_before_block_counterexample :
    load32 (set_entry (installed (host_malloc 0x2202d900) host_memcpy ⟨fun _ => 0⟩).2)
      (usb_string_descriptors
        (installed (host_malloc 0x2202d900) host_memcpy ⟨fun _ => 0⟩).2 + 8) = 0x2202FFC0 ∧
    bytes (set_entry (installed (host_malloc 0x2202d900) host_memcpy ⟨fun _ => 0⟩).2)
      0x2202FFC0 16 = [0, 0, 0, 0, 0, 0, 0, 0, 0, 0, 0, 0, 0, 0, 0, 0] ∧
    usb_string (set_entry (installed (host_malloc 0x2202d900) host_memcpy ⟨fun _ => 0⟩).2)
      0x2202FFC0 ≠ some "PWN DFU" := by
  decide

/-- C11 (amended): the block is encoded after it is published.  Lines 30-35
are the entry store of line 31 followed by the four block stores of lines
32-35.  For every allocator, copy routine and initial memory: right after
line 31 entry 2 holds `0x2202FFC0`, and the 16 bytes at `0x2202FFC0` are the
"PWN DFU" descriptor in the state after line 35 and in the final state after
line 37; and when the entry word `T+8` shares no byte with the block, right
after line 31 the block still holds the bytes it held before line 30. -/
theorem block_written_after_entry (malloc : malloc_t) (memcpy : memcpy_t) (m : Mem) :
    set_descriptor (installed malloc memcpy m).2
      = write_block (set_entry (installed malloc memcpy m).2) ∧
    load32 (set_entry (installed malloc memcpy m).2)
      (load32 (installed malloc memcpy m).2 (0x2202ba3c + 0x80) + 8) = 0x2202FFC0 ∧
    (separate (load32 (installed malloc memcpy m).2 (0x2202ba3c + 0x80) + 8) 4 0x2202FFC0 16 →
      bytes (set_entry (installed malloc memcpy m).2) 0x2202FFC0 16
        = bytes (installed malloc memcpy m).2 0x2202FFC0 16) ∧
    bytes (set_descriptor (installed malloc memcpy m).2) 0x2202FFC0 16
      = [0x10, 0x03, 0x50, 0x00, 0x57, 0x00, 0x4E, 0x00,
         0x20, 0x00, 0x44, 0x00, 0x46, 0x00, 0x55, 0x00] ∧
    bytes (_start malloc memcpy m) 0x2202FFC0 16
      = [0x10, 0x03, 0x50, 0x00, 0x57, 0x00, 0x4E, 0x00,
         0x20, 0x00, 0x44, 0x00, 0x46, 0x00, 0x55, 0x00] := by
  refine ⟨rfl, ?_, ?_, ?_, start_descriptor_bytes malloc memcpy m⟩
  · rw [← usb_string_descriptors_eq]
    unfold set_entry idx
    exact load32_store32_eq _ _ _ _ (by omega)
  · intro h
    rw [← usb_string_descriptors_eq] at h
    apply bytes_congr
    intro k hk
    have a := separate_off _ 4 0x2202FFC0 16 h k hk
    unfold set_entry idx
    exact load8_store32_ne _ _ _ _ (by omega)
  · rw [set_descriptor_split]
    exact write_block_bytes _

/-- Witness for C11 (amended): zero memory, block at the heap base; the entry
word is at address 8 and the block still reads as zeros right after line 31. -/
theorem block_written_after_entry_witness :
    separate (load32 (installed (host_malloc 0x2202d900) host_memcpy ⟨fun _ => 0⟩).2
      (0x2202ba3c + 0x80) + 8) 4 0x2202FFC0 16 ∧
    bytes (set_entry (installed (host_malloc 0x2202d900) host_memcpy ⟨fun _ => 0⟩).2)
      0x2202FFC0 16
      = bytes (installed (host_malloc 0x2202d900) host_memcpy ⟨fun _ => 0⟩).2 0x2202FFC0 16 ∧
    bytes (_start (host_malloc 0x2202d900) host_memcpy ⟨fun _ => 0⟩) 0x2202FFC0 16
      = [0x10, 0x03, 0x50, 0x00, 0x57, 0x00, 0x4E, 0x00,
         0x20, 0x00, 0x44, 0x00, 0x46, 0x00, 0x55, 0x00] :=
  ⟨by decide,
   (block_written_after_entry (host_malloc 0x2202d900) host_memcpy ⟨fun _ => 0⟩).2.2.1
      (by decide),
   (block_written_after_entry (host_malloc 0x2202d900) host_memcpy ⟨fun _ => 0⟩).2.2.2.2⟩

/-- C12: let `T` be the table pointer read at line 30, with the allocator
returning `p` and the byte-wise copy.  `T` is read from `og_state[0x20]`, the
word at `0x2202ba3c + 0x80 = 0x2202babc` (not at byte offset `0x20`), and
equals the value of that word on entry when the block does not cover it.
Lines 30-35 change no byte outside the entry word `T+8..T+11` and the
descriptor block, so the one store through `T` is the word at `T+8`; at the
end of `_start` that entry holds `0x2202FFC0` (entry word separate from the
descriptor block and the state-pointer slot), and every other entry `T+4*k`,
`k ≠ 2`, `k < 2^30`, holds the value it had on entry when its word shares no
byte with the transfer words, the block, `og_state[9]`, the descriptor block
or the state-pointer slot. -/
theorem spoofer_one_entry (m : Mem) (p : Nat) :
    idx og_state 0x20 = 0x2202babc ∧ 0x2202babc = 0x2202ba3c + 0x80 ∧
    (separate p 0x70 0x2202babc 4 →
      usb_string_descriptors (installed (host_malloc p) host_memcpy m).2
        = load32 m 0x2202babc) ∧
    (∀ x,
      (∀ i, i < 4 → x % 4294967296 ≠
        (usb_string_descriptors (installed (host_malloc p) host_memcpy m).2 + 8 + i)
          % 4294967296) →
      (∀ i, i < 16 → x % 4294967296 ≠ (0x2202FFC0 + i) % 4294967296) →
      load8 (set_descriptor (installed (host_malloc p) host_memcpy m).2) x
        = load8 (installed (host_malloc p) host_memcpy m).2 x) ∧
    (separate (usb_string_descriptors (installed (host_malloc p) host_memcpy m).2 + 8) 4
        0x2202FFC0 16 →
      separate (usb_string_descriptors (installed (host_malloc p) host_memcpy m).2 + 8) 4
        0x2202FFF8 4 →
      load32 (_start (host_malloc p) host_memcpy m)
        (usb_string_descriptors (installed (host_malloc p) host_memcpy m).2 + 8)
        = 0x2202FFC0) ∧
    (∀ k, k < 1073741824 → k ≠ 2 →
      separate (usb_string_descriptors (installed (host_malloc p) host_memcpy m).2 + 4 * k) 4
        (0x2202ba3c + 4 * 2) 12 →
      separate (usb_string_descriptors (installed (host_malloc p) host_memcpy m).2 + 4 * k) 4
        p 0x70 →
      separate (usb_string_descriptors (installed (host_malloc p) host_memcpy m).2 + 4 * k) 4
        (0x2202ba3c + 0x24) 4 →
      separate (usb_string_descriptors (installed (host_malloc p) host_memcpy m).2 + 4 * k) 4
        0x2202FFC0 16 →
      separate (usb_string_descriptors (installed (host_malloc p) host_memcpy m).2 + 4 * k) 4
        0x2202FFF8 4 →
      load32 (_start (host_malloc p) host_memcpy m)
        (usb_string_descriptors (installed (host_malloc p) host_memcpy m).2 + 4 * k)
        = load32 m
          (usb_string_descriptors (installed (host_malloc p) host_memcpy m).2 + 4 * k)) := by
  refine ⟨by decide, by decide, table_ptr_on_entry m p, ?_, load32_start_entry _ _ m, ?_⟩
  · intro x hx hd
    apply load8_set_descriptor_ne
    · by_contra hc
      exact hx ((x % 4294967296 + 4294967296
        - (usb_string_descriptors (installed (host_malloc p) host_memcpy m).2 + 8)
          % 4294967296) % 4294967296) (by omega) (by omega)
    · by_contra hc
      exact hd ((x % 4294967296 + 4294967296 - 0x2202FFC0) % 4294967296) (by omega) (by omega)
  · intro k hk hk2 h1 h2 h3 h4 h5
    apply load32_eq_of_bytes
    intro j hj
    have a1 := separate_off_left _ 4 _ 12 h1 j hj
    have a2 := separate_off_left _ 4 _ 0x70 h2 j hj
    have a3 := separate_off_left _ 4 _ 4 h3 j hj
    have a4 := separate_off_left _ 4 _ 16 h4 j hj
    have a5 := separate_off_left _ 4 _ 4 h5 j hj
    exact load8_start_frame m p _ (by omega) (by omega) (by omega) (by omega) (by omega)
      (by omega)

/-- Witness for C12: block at the heap base, memory whose byte at `a` is
`a % 256`; the table pointer read is `0xbfbebdbc`, entry 2 ends as
`0x2202FFC0` and entry 3 keeps its value. -/
theorem spoofer_one_entry_witness :
    separate 0x2202d900 0x70 0x2202babc 4 ∧
    usb_string_descriptors (installed (host_malloc 0x2202d900) host_memcpy ⟨fun a => a⟩).2
      = load32 ⟨fun a => a⟩ 0x2202babc ∧
    load32 (_start (host_malloc 0x2202d900) host_memcpy ⟨fun a => a⟩) (0xbfbebdbc + 8)
      = 0x2202FFC0 ∧
    load32 (_start (host_malloc 0x2202d900) host_memcpy ⟨fun a => a⟩) (0xbfbebdbc + 4 * 3)
      = load32 ⟨fun a => a⟩ (0xbfbebdbc + 4 * 3) := by
  have hT : usb_string_descriptors
      (installed (host_malloc 0x2202d900) host_memcpy ⟨fun a => a⟩).2 = 0xbfbebdbc := by decide
  have hs : separate 0x2202d900 0x70 0x2202babc 4 := by intro i hi j hj; omega
  have W := spoofer_one_entry ⟨fun a => a⟩ 0x2202d900
  have W3 := W.2.2.1 hs
  rw [hT] at W
  exact ⟨hs, W3, W.2.2.2.2.1 (by decide) (by decide),
    W.2.2.2.2.2 3 (by decide) (by decide) (by decide) (by intro i hi j hj; omega)
      (by decide) (by decide) (by decide)⟩

/-- C13: let `T` be the table pointer read at line 30, with the allocator
returning `p` and the byte-wise copy, and let the device state be the `n`
words from `0x2202ba3c`, for any `n` that ends it at or before the descriptor
block (`n ≤ 0x1161`; the heap base is at word `0x7B1`).  For every initial
memory in which the block `[p, p+0x70)` and the entry word `T+8` share no byte
with those `n` words, every word `og_state[k]`, `k < n`, other than
`k = 2, 3, 4, 9` has the same value at exit of `_start` as on entry (the
table pointer `og_state[0x20]` among them). -/
theorem device_state_frame (m : Mem) (p n : Nat) (hn : n ≤ 0x1161)
    (hb : separate p 0x70 0x2202ba3c (4 * n))
    (ht : separate (usb_string_descriptors (installed (host_malloc p) host_memcpy m).2 + 8) 4
      0x2202ba3c (4 * n))
    (k : Nat) (hk : k < n) (h2 : k ≠ 2) (h3 : k ≠ 3) (h4 : k ≠ 4) (h9 : k ≠ 9) :
    load32 (_start (host_malloc p) host_memcpy m) (0x2202ba3c + 4 * k)
      = load32 m (0x2202ba3c + 4 * k) := by
  apply load32_eq_of_bytes
  intro j hj
  have a := separate_off p 0x70 0x2202ba3c (4 * n) hb (4 * k + j) (by omega)
  have b := separate_off _ 4 0x2202ba3c (4 * n) ht (4 * k + j) (by omega)
  exact load8_start_frame m p _ (by omega) (by omega) (by omega) (by omega) (by omega)
    (by omega)

/-- Witness for C13: block at the heap base, memory whose byte at `a` is
`a % 256`, the state taken as the `0x7B1` words up to the heap base, and the
table-pointer word `og_state[0x20]`. -/
theorem device_state_frame_witness :
    separate 0x2202d900 0x70 0x2202ba3c (4 * 0x7B1) ∧
    load32 (_start (host_malloc 0x2202d900) host_memcpy ⟨fun a => a⟩) (0x2202ba3c + 4 * 0x20)
      = load32 ⟨fun a => a⟩ (0x2202ba3c + 4 * 0x20) := by
  have hT : usb_string_descriptors
      (installed (host_malloc 0x2202d900) host_memcpy ⟨fun a => a⟩).2 = 0xbfbebdbc := by decide
  have hs : separate 0x2202d900 0x70 0x2202ba3c (4 * 0x7B1) := by intro i hi j hj; omega
  exact ⟨hs, device_state_frame ⟨fun a => a⟩ 0x2202d900 0x7B1 (by decide) hs
    (by rw [hT]; intro i hi j hj; omega) 0x20 (by decide) (by decide) (by decide)
    (by decide) (by decide)⟩

/-- C14: the fixed regions of the routine, as 32-bit address ranges, share no
byte pairwise: the state bytes `0x2202ba3c+0x08 .. +0x27` (from `og_state[2]`
to the end of `og_state[9]`), the word `og_state[0x20]` at `+0x80`, the
descriptor block `0x2202FFC0..0x2202FFCF`, the state-pointer word
`0x2202FFF8..0x2202FFFB` and the template `0x20000020..0x2000008F`.  The last
descriptor word ends below the state-pointer slot, and for every context
address the two patched slots (byte offsets `0x14` and `0x1C`) are separate
words, at offsets that are multiples of 4 and end within the `0x70` bytes. -/
theorem fixed_regions_disjoint :
    idx og_state 2 = 0x2202ba3c + 0x08 ∧
    idx og_state (0x24 / 4) + 4 = 0x2202ba3c + 0x28 ∧
    idx og_state 0x20 = 0x2202ba3c + 0x80 ∧
    idx state_ptr 0 = 0x2202FFF8 ∧
    idx 0x2202FFC0 3 + 4 = 0x2202FFC0 + 16 ∧
    separate (idx og_state 2) 0x20 (idx og_state 0x20) 4 ∧
    separate (idx og_state 2) 0x20 0x2202FFC0 16 ∧
    separate (idx og_state 2) 0x20 (idx state_ptr 0) 4 ∧
    separate (idx og_state 2) 0x20 0x20000020 0x70 ∧
    separate (idx og_state 0x20) 4 0x2202FFC0 16 ∧
    separate (idx og_state 0x20) 4 (idx state_ptr 0) 4 ∧
    separate (idx og_state 0x20) 4 0x20000020 0x70 ∧
    separate 0x2202FFC0 16 (idx state_ptr 0) 4 ∧
    separate 0x2202FFC0 16 0x20000020 0x70 ∧
    separate (idx state_ptr 0) 4 0x20000020 0x70 ∧
    idx 0x2202FFC0 3 + 4 ≤ idx state_ptr 0 ∧
    idx state_ptr 0 + 4 ≤ 4294967296 ∧
    (∀ new_ctx, separate (idx new_ctx (0x14 / 4)) 4 (idx new_ctx (0x1C / 4)) 4) ∧
    4 * (0x14 / 4) = 0x14 ∧ 4 * (0x1C / 4) = 0x1C ∧
    0x14 % 4 = 0 ∧ 0x1C % 4 = 0 ∧ 0x14 + 4 ≤ 0x70 ∧ 0x1C + 4 ≤ 0x70 := by
  have e1 : idx og_state 2 = 0x2202ba44 := by decide
  have e2 : idx og_state 0x20 = 0x2202babc := by decide
  have e3 : idx state_ptr 0 = 0x2202FFF8 := by decide
  rw [e1, e2, e3]
  refine ⟨by decide, by decide, by decide, by decide, by decide, ?_, ?_, ?_, ?_, ?_, ?_, ?_,
    ?_, ?_, ?_, by decide, by decide, ?_, by decide, by decide, by decide, by decide,
    by decide, by decide⟩
  all_goals first
    | (intro i hi j hj; omega)
    | (intro c i hi j hj; unfold idx; omega)

end S5Late
